import Mathlib

/-!
# go-reqlimit: request limiter backed by Redis

A shallow embedding of `reqlimit.go`.

* Go strings are modelled by `String`; the only bytes the program inspects
  are ASCII (the separator `:` and the verb `%s`).
* Go `int` values (interval, limit, the INCR reply) are modelled by `Int`;
  the program only compares them, it performs no arithmetic on them.
* The Redis server reached through `rc.redisPool` is an explicit state
  `Redis` threaded through every call.  Every command sent with `conn.Do`
  is appended to a log, and a fault oracle decides which commands fail.
  No time passes in the model: a time-to-live is recorded on the entry,
  and entries never expire.
-/

namespace Reqlimit

/-! ## fmt.Sprintf, restricted to the verbs the program uses -/

/-- Expansion of a format string, character by character: `%s` is replaced by
the next operand, `%%` by a percent sign, every other character is copied.
A `%s` without an operand prints `%!s(MISSING)` as in Go. -/
def sprintfAux : List Char → List String → List Char
  | '%' :: 's' :: rest, a :: args => a.data ++ sprintfAux rest args
  | '%' :: 's' :: rest, [] => "%!s(MISSING)".data ++ sprintfAux rest []
  | '%' :: '%' :: rest, args => '%' :: sprintfAux rest args
  | c :: rest, args => c :: sprintfAux rest args
  | [], _ => []

/-- The call `fmt.Sprintf(format, args...)` for string operands. -/
def Sprintf (format : String) (args : List String) : String :=
  ⟨sprintfAux format.data args⟩

/-! ## Configuration and limiter -/

/-- The struct `ReqConfig`.  The field `names` is the Go `map[string]bool`,
read with `rc.names[name]` (absent keys read as `false`).  The field
`redisPool` is represented by the `Redis` state passed to each operation. -/
structure ReqConfig where
  «namespace» : String
  names : String → Bool

/-- The struct `ReqLimiter`. -/
structure ReqLimiter where
  name : String
  reqConfig : ReqConfig
  interval : Int
  limit : Int

/-- The method `NewLimiter`: panics with "Name must be unique" when the name is
already registered, otherwise registers the name and returns the limiter
together with the updated configuration. -/
def ReqConfig.NewLimiter (rc : ReqConfig) (name : String) (interval limit : Int) :
    Except String (ReqLimiter × ReqConfig) :=
  if rc.names name then
    .error "Name must be unique"
  else
    let rc1 : ReqConfig :=
      { rc with names := fun k => if k = name then true else rc.names k }
    .ok ({ name := name, reqConfig := rc1, interval := interval, limit := limit }, rc1)

/-- The method `limitKey`: the Redis key of a limiter for one address. -/
def ReqLimiter.limitKey (rl : ReqLimiter) (ip : String) : String :=
  if rl.reqConfig.«namespace» = "" then
    Sprintf "limiter:%s:%s" [rl.name, ip]
  else
    Sprintf "%s:limiter:%s:%s" [rl.reqConfig.«namespace», rl.name, ip]

/-! ## The Redis connection -/

/-- The commands the program sends. -/
inductive Cmd where
  | INCR (key : String)
  | EXPIRE (key : String) (seconds : Int)
  deriving DecidableEq, Repr

/-- A stored integer with its time-to-live in seconds (`none`: no expiry). -/
structure Entry where
  value : Int
  ttl : Option Int
  deriving DecidableEq, Repr

/-- The server state seen through the connection pool: the stored entries, the
log of commands sent so far (oldest first), and the fault oracle: the command
`c` sent after `n` earlier commands fails with `e` when `fault n c = some e`. -/
structure Redis where
  data : String → Option Entry
  log : List Cmd
  fault : Nat → Cmd → Option String

/-- The result of `conn.Do` as a sum: the error on the left, the integer reply
on the right. -/
def replySum : Except String Int → String ⊕ Int
  | .ok n => .inr n
  | .error e => .inl e

/-- Results of `conn.Do` can be compared, through their sums. -/
instance : DecidableEq (Except String Int) :=
  @Function.Injective.decidableEq _ _ replySum _ (by
    intro a b h
    cases a <;> cases b <;> simp_all [replySum])

/-- The call `conn.Do(cmd)`: the integer reply or the error, and the new
state.  A failed command leaves the entries as they are.  INCR creates an absent
key at 1 and keeps the time-to-live of an existing key; EXPIRE replies 1 and
sets the time-to-live when the key exists, and replies 0 otherwise.

Two behaviours of a real server are left to the environment: the refusal of
INCR on the largest 64-bit value is one of the failures the fault oracle may
produce, and the removal of a key (by the passing of time, or at once by EXPIRE
with a non-positive number of seconds) does not occur, since entries never
expire in the model. -/
def Redis.Do (st : Redis) (c : Cmd) : Except String Int × Redis :=
  let st1 : Redis := { st with log := st.log ++ [c] }
  match st.fault st.log.length c with
  | some e => (.error e, st1)
  | none =>
    match c with
    | .INCR key =>
      let n : Int := match st.data key with
        | some e => e.value + 1
        | none => 1
      let ttl : Option Int := match st.data key with
        | some e => e.ttl
        | none => none
      (.ok n, { st1 with data := fun k => if k = key then some ⟨n, ttl⟩ else st.data k })
    | .EXPIRE key seconds =>
      match st.data key with
      | some e =>
        (.ok 1, { st1 with
          data := fun k => if k = key then some ⟨e.value, some seconds⟩ else st.data k })
      | none => (.ok 0, st1)

/-- The helper `redis.Int` of redigo on the result of `conn.Do`, as its
documentation states it: with an error it returns 0 and the error, and an integer
reply is returned as it is. -/
def redisInt : Except String Int → Int × Option String
  | .ok n => (n, none)
  | .error e => (0, some e)

/-- The method `incr`: sends INCR, sends EXPIRE with the limiter's interval
when the value read is 1 (the result of EXPIRE is discarded), and returns the
value and error of INCR. -/
def ReqLimiter.incr (rl : ReqLimiter) (key : String) (st : Redis) :
    (Int × Option String) × Redis :=
  let r := st.Do (.INCR key)
  let n := (redisInt r.1).1
  let err := (redisInt r.1).2
  let st2 := if n = 1 then (r.2.Do (.EXPIRE key rl.interval)).2 else r.2
  ((n, err), st2)

/-! ## The request and its address -/

/-- The parts of `http.Request` that `realIPAddress` reads: `Header` gives the
result of `r.Header.Get` for a header name (empty when the header is absent) and
`RemoteHost` is the host that `net.SplitHostPort(r.RemoteAddr)` returns (empty
when the split fails). -/
structure Request where
  Header : String → String
  RemoteHost : String

/-- The function `realIPAddress`: the first non-empty of four headers, else the
host of the remote address. -/
def realIPAddress (r : Request) : String :=
  if 0 < (r.Header "X-Real-IP").length then r.Header "X-Real-IP"
  else if 0 < (r.Header "X-Forwarded-For").length then r.Header "X-Forwarded-For"
  else if 0 < (r.Header "X-Forwarded").length then r.Header "X-Forwarded"
  else if 0 < (r.Header "Client-IP").length then r.Header "Client-IP"
  else r.RemoteHost

/-- The method `Exceed`: the verdict and error for one request, and the new
server state. -/
def ReqLimiter.Exceed (rl : ReqLimiter) (r : Request) (st : Redis) :
    (Bool × Option String) × Redis :=
  let ip := realIPAddress r
  let key := rl.limitKey ip
  let res := rl.incr key st
  match res.1.2 with
  | some e => ((false, some e), res.2)
  | none => ((decide (res.1.1 > rl.limit), none), res.2)

/-- Consecutive `Exceed` calls, one per request, in order: the list of results
and the final server state. -/
def exceedAll (rl : ReqLimiter) : List Request → Redis → List (Bool × Option String) × Redis
  | [], st => ([], st)
  | r :: rs, st =>
    let res := rl.Exceed r st
    let tl := exceedAll rl rs res.2
    (res.1 :: tl.1, tl.2)

/-- A sequence of `NewLimiter` calls on one registry; a call that panics leaves
the registry as it was. -/
def registerAll (rc : ReqConfig) : List (String × Int × Int) → ReqConfig
  | [] => rc
  | (name, interval, limit) :: calls =>
    match rc.NewLimiter name interval limit with
    | .ok res => registerAll res.2 calls
    | .error _ => registerAll rc calls

/-- The key a command addresses. -/
def Cmd.key : Cmd → String
  | .INCR key => key
  | .EXPIRE key _ => key

/-- The count stored under a key, 0 when the key is absent. -/
def Redis.count (st : Redis) (key : String) : Int :=
  match st.data key with
  | some e => e.value
  | none => 0

/-- The commands sent between an earlier state and a later one. -/
def issued (st later : Redis) : List Cmd :=
  later.log.drop st.log.length

/-- A request without the four address headers, from the given host. -/
def requestFrom (ip : String) : Request :=
  { Header := fun _ => "", RemoteHost := ip }

/-- A server without entries on which every command succeeds. -/
def emptyRedis : Redis :=
  { data := fun _ => none, log := [], fault := fun _ _ => none }

/-- A server without entries on which every command fails. -/
def downRedis : Redis :=
  { data := fun _ => none, log := [], fault := fun _ _ => some "connection refused" }

/-- A server without entries on which INCR succeeds and EXPIRE fails. -/
def expireFails : Redis :=
  { data := fun _ => none
    log := []
    fault := fun _ c =>
      match c with
      | .INCR _ => none
      | .EXPIRE _ _ => some "i/o timeout" }

/-- A server that holds the count 5 for the address "B" under the example
limiter, on which every command succeeds. -/
def redisWithB : Redis :=
  { data := fun k => if k = "Appname:limiter:rps:B" then some ⟨5, some 60⟩ else none
    log := []
    fault := fun _ _ => none }

/-- A server that holds the count 0 with 30 seconds to live under the key "k",
on which every command succeeds. -/
def redisZero : Redis :=
  { data := fun k => if k = "k" then some ⟨0, some 30⟩ else none
    log := []
    fault := fun _ _ => none }

/-- The registry of the example program before any limiter is created. -/
def exampleConfig : ReqConfig :=
  { «namespace» := "Appname", names := fun _ => false }

/-- The limiter of the example program: `New("Appname", ...)` followed by
`NewLimiter("rps", 60, 20)`. -/
def rpm : ReqLimiter :=
  { name := "rps"
    reqConfig := { «namespace» := "Appname", names := fun k => k = "rps" }
    interval := 60
    limit := 20 }

/-- A limiter on a registry without namespace with the given name. -/
def bare (name : String) : ReqLimiter :=
  { name := name
    reqConfig := { «namespace» := "", names := fun k => k = name }
    interval := 60
    limit := 20 }

/-- The example registry after "rps" was registered. -/
def registeredConfig : ReqConfig :=
  { exampleConfig with names := fun k => if k = "rps" then true else exampleConfig.names k }

/-- A limiter with the given name on a registry with the given namespace. -/
def limiterIn (ns name : String) : ReqLimiter :=
  { name := name
    reqConfig := { «namespace» := ns, names := fun k => k = name }
    interval := 1
    limit := 1 }

/-! ## Key construction -/

/-- The characters of the key of a limiter without namespace. -/
theorem limitKey_data_empty (rl : ReqLimiter) (ip : String)
    (h : rl.reqConfig.«namespace» = "") :
    (rl.limitKey ip).data = "limiter:".data ++ (rl.name.data ++ ':' :: ip.data) := by
  unfold ReqLimiter.limitKey
  rw [if_pos h]
  simp [Sprintf, sprintfAux]

/-- The characters of the key of a limiter with a namespace. -/
theorem limitKey_data_nonempty (rl : ReqLimiter) (ip : String)
    (h : rl.reqConfig.«namespace» ≠ "") :
    (rl.limitKey ip).data =
      rl.reqConfig.«namespace».data ++
        ':' :: ("limiter:".data ++ (rl.name.data ++ ':' :: ip.data)) := by
  unfold ReqLimiter.limitKey
  rw [if_neg h]
  simp [Sprintf, sprintfAux]

/-- Two lists that agree up to and including the first colon: when neither
head segment holds a colon, the head segments and the rests are equal. -/
theorem segment_inj : ∀ (a b x y : List Char), ':' ∉ a → ':' ∉ b →
    a ++ ':' :: x = b ++ ':' :: y → a = b ∧ x = y
  | [], [], _, _, _, _, h => by simpa using h
  | [], d :: b, x, y, _, hb, h => by
    simp only [List.nil_append, List.cons_append, List.cons.injEq] at h
    exact absurd h.1 (fun e => hb (e ▸ List.mem_cons_self _ _))
  | c :: a, [], x, y, ha, _, h => by
    simp only [List.nil_append, List.cons_append, List.cons.injEq] at h
    exact absurd h.1 (fun e => ha (e ▸ List.mem_cons_self _ _))
  | c :: a, d :: b, x, y, ha, hb, h => by
    simp only [List.cons_append, List.cons.injEq] at h
    have ha2 : ':' ∉ a := fun m => ha (List.mem_cons_of_mem _ m)
    have hb2 : ':' ∉ b := fun m => hb (List.mem_cons_of_mem _ m)
    obtain ⟨e1, e2⟩ := segment_inj a b x y ha2 hb2 h.2
    exact ⟨by rw [h.1, e1], e2⟩

/-- The key depends on the limiter only through its namespace and name. -/
theorem limitKey_congr (rl1 rl2 : ReqLimiter) (ip : String)
    (hns : rl1.reqConfig.«namespace» = rl2.reqConfig.«namespace») (hn : rl1.name = rl2.name) :
    rl1.limitKey ip = rl2.limitKey ip := by
  unfold ReqLimiter.limitKey
  rw [hns, hn]

/-- Keys of limiters without namespace: equal keys force equal names and
addresses when the names hold no colon. -/
theorem limitKey_inj_empty (rl1 rl2 : ReqLimiter) (i1 i2 : String)
    (e1 : rl1.reqConfig.«namespace» = "") (e2 : rl2.reqConfig.«namespace» = "")
    (c1 : ':' ∉ rl1.name.data) (c2 : ':' ∉ rl2.name.data)
    (h : rl1.limitKey i1 = rl2.limitKey i2) : rl1.name = rl2.name ∧ i1 = i2 := by
  have hd := congrArg String.data h
  rw [limitKey_data_empty rl1 i1 e1, limitKey_data_empty rl2 i2 e2] at hd
  obtain ⟨hn, hi⟩ := segment_inj _ _ _ _ c1 c2 (List.append_cancel_left hd)
  exact ⟨String.ext hn, String.ext hi⟩

/-- Keys of limiters with a namespace: equal keys force equal namespaces, names
and addresses when namespaces and names hold no colon. -/
theorem limitKey_inj_nonempty (rl1 rl2 : ReqLimiter) (i1 i2 : String)
    (e1 : rl1.reqConfig.«namespace» ≠ "") (e2 : rl2.reqConfig.«namespace» ≠ "")
    (s1 : ':' ∉ rl1.reqConfig.«namespace».data) (s2 : ':' ∉ rl2.reqConfig.«namespace».data)
    (c1 : ':' ∉ rl1.name.data) (c2 : ':' ∉ rl2.name.data)
    (h : rl1.limitKey i1 = rl2.limitKey i2) :
    rl1.reqConfig.«namespace» = rl2.reqConfig.«namespace» ∧ rl1.name = rl2.name ∧ i1 = i2 := by
  have hd := congrArg String.data h
  rw [limitKey_data_nonempty rl1 i1 e1, limitKey_data_nonempty rl2 i2 e2] at hd
  obtain ⟨hns, hrest⟩ := segment_inj _ _ _ _ s1 s2 hd
  obtain ⟨hn, hi⟩ := segment_inj _ _ _ _ c1 c2 (List.append_cancel_left hrest)
  exact ⟨String.ext hns, String.ext hn, String.ext hi⟩

/-- A key built without namespace equals a key built with a namespace only when
that namespace is the word "limiter" (namespace without colon). -/
theorem limitKey_mixed (rl1 rl2 : ReqLimiter) (i1 i2 : String)
    (e1 : rl1.reqConfig.«namespace» = "") (e2 : rl2.reqConfig.«namespace» ≠ "")
    (s2 : ':' ∉ rl2.reqConfig.«namespace».data)
    (h : rl1.limitKey i1 = rl2.limitKey i2) : rl2.reqConfig.«namespace» = "limiter" := by
  have hd := congrArg String.data h
  rw [limitKey_data_empty rl1 i1 e1, limitKey_data_nonempty rl2 i2 e2] at hd
  have hl : "limiter:".data = "limiter".data ++ [':'] := by decide
  rw [hl, List.append_assoc, List.singleton_append] at hd
  obtain ⟨hns, _⟩ := segment_inj _ _ _ _ (by decide) s2 hd
  exact (String.ext hns).symm

/-- C2: limitKey returns namespace, ":limiter:", name, ":", identity joined in
this order when the namespace is non-empty, and "limiter:", name, ":", identity
when it is empty. -/
theorem limitKey_exact (rl : ReqLimiter) (ip : String) :
    (rl.reqConfig.«namespace» ≠ "" →
      rl.limitKey ip = rl.reqConfig.«namespace» ++ ":limiter:" ++ rl.name ++ ":" ++ ip) ∧
    (rl.reqConfig.«namespace» = "" →
      rl.limitKey ip = "limiter:" ++ rl.name ++ ":" ++ ip) := by
  constructor
  · intro h
    apply String.ext
    rw [limitKey_data_nonempty rl ip h]
    simp
  · intro h
    apply String.ext
    rw [limitKey_data_empty rl ip h]
    simp

/-- The two keys of the example: with the namespace "Appname" and without. -/
theorem limitKey_exact_witness :
    rpm.limitKey "1.2.3.4" = "Appname:limiter:rps:1.2.3.4" ∧
    (bare "rps").limitKey "1.2.3.4" = "limiter:rps:1.2.3.4" :=
  ⟨((limitKey_exact rpm "1.2.3.4").1 (by decide)).trans (by decide),
   ((limitKey_exact (bare "rps") "1.2.3.4").2 (by decide)).trans (by decide)⟩

/-- One limiter gives equal keys only to equal addresses. -/
theorem limitKey_ip_inj (rl : ReqLimiter) (a b : String)
    (h : rl.limitKey a = rl.limitKey b) : a = b := by
  have hd := congrArg String.data h
  by_cases e : rl.reqConfig.«namespace» = ""
  · rw [limitKey_data_empty rl a e, limitKey_data_empty rl b e] at hd
    have h2 := List.append_cancel_left (List.append_cancel_left hd)
    exact String.ext (List.cons.inj h2).2
  · rw [limitKey_data_nonempty rl a e, limitKey_data_nonempty rl b e] at hd
    have h2 := List.append_cancel_left (List.cons.inj (List.append_cancel_left hd)).2
    have h3 := List.append_cancel_left h2
    exact String.ext (List.cons.inj h3).2

/-- C3 fails as stated: the triples ("", "a:b", "c") and ("", "a", "b:c") differ
and limitKey builds the one key "limiter:a:b:c" for both. -/
theorem limitKey_collision :
    (((bare "a:b").reqConfig.«namespace», (bare "a:b").name, "c") ≠
      ((bare "a").reqConfig.«namespace», (bare "a").name, "b:c")) ∧
    (bare "a:b").limitKey "c" = "limiter:a:b:c" ∧
    (bare "a").limitKey "b:c" = "limiter:a:b:c" ∧
    (bare "a:b").limitKey "c" = (bare "a").limitKey "b:c" := by
  refine ⟨by decide, by decide, by decide, by decide⟩

/-- C3 amended: for namespaces and limiter names that hold no colon, the
namespace not being the word "limiter", two triples (namespace, name, identity)
get the same key exactly when they are the same triple. -/
theorem limitKey_injective_without_colon (rl1 rl2 : ReqLimiter) (i1 i2 : String)
    (s1 : ':' ∉ rl1.reqConfig.«namespace».data) (s2 : ':' ∉ rl2.reqConfig.«namespace».data)
    (c1 : ':' ∉ rl1.name.data) (c2 : ':' ∉ rl2.name.data)
    (l1 : rl1.reqConfig.«namespace» ≠ "limiter") (l2 : rl2.reqConfig.«namespace» ≠ "limiter") :
    rl1.limitKey i1 = rl2.limitKey i2 ↔
      (rl1.reqConfig.«namespace», rl1.name, i1) = (rl2.reqConfig.«namespace», rl2.name, i2) := by
  constructor
  · intro h
    by_cases e1 : rl1.reqConfig.«namespace» = ""
    · by_cases e2 : rl2.reqConfig.«namespace» = ""
      · obtain ⟨hn, hi⟩ := limitKey_inj_empty rl1 rl2 i1 i2 e1 e2 c1 c2 h
        rw [e1, e2, hn, hi]
      · exact absurd (limitKey_mixed rl1 rl2 i1 i2 e1 e2 s2 h) l2
    · by_cases e2 : rl2.reqConfig.«namespace» = ""
      · exact absurd (limitKey_mixed rl2 rl1 i2 i1 e2 e1 s1 h.symm) l1
      · obtain ⟨hns, hn, hi⟩ := limitKey_inj_nonempty rl1 rl2 i1 i2 e1 e2 s1 s2 c1 c2 h
        rw [hns, hn, hi]
  · intro h
    simp only [Prod.mk.injEq] at h
    rw [h.2.2]
    exact limitKey_congr rl1 rl2 i2 h.1 h.2.1

/-- The example limiter and a limiter of the same name without namespace give
different keys to one address. -/
theorem limitKey_injective_without_colon_witness :
    ¬ (rpm.limitKey "1.2.3.4" = (bare "rps").limitKey "1.2.3.4") :=
  fun h =>
    absurd
      ((limitKey_injective_without_colon rpm (bare "rps") "1.2.3.4" "1.2.3.4"
        (by decide) (by decide) (by decide) (by decide) (by decide) (by decide)).1 h)
      (by decide)

/-- A second collision, with names that hold no colon: the namespace "limiter"
against no namespace. -/
theorem limitKey_collision_limiter_namespace :
    (limiterIn "limiter" "x").limitKey "y" = (bare "limiter").limitKey "x:y" := by
  decide

/-- A third collision, with names that hold no colon: a namespace that holds a
colon. -/
theorem limitKey_collision_namespace_colon :
    (limiterIn "a:limiter" "x").limitKey "y" = (limiterIn "a" "limiter").limitKey "x:y" := by
  decide

/-- C5: in one namespace (empty or not), limiters with different names give
different keys to the same identity. -/
theorem limitKey_names_differ (rl1 rl2 : ReqLimiter) (ip : String)
    (hns : rl1.reqConfig.«namespace» = rl2.reqConfig.«namespace»)
    (hn : rl1.name ≠ rl2.name) : rl1.limitKey ip ≠ rl2.limitKey ip := by
  intro h
  apply hn
  have hd := congrArg String.data h
  by_cases e : rl1.reqConfig.«namespace» = ""
  · rw [limitKey_data_empty rl1 ip e, limitKey_data_empty rl2 ip (hns ▸ e)] at hd
    exact String.ext (List.append_cancel_right (List.append_cancel_left hd))
  · rw [limitKey_data_nonempty rl1 ip e, limitKey_data_nonempty rl2 ip (hns ▸ e), hns] at hd
    have h2 := (List.cons.inj (List.append_cancel_left hd)).2
    exact String.ext (List.append_cancel_right (List.append_cancel_left h2))

/-- Two limiters "rps" and "rpm" of the namespace "Appname" on one address. -/
theorem limitKey_names_differ_witness :
    rpm.limitKey "1.2.3.4" ≠ ({ rpm with name := "rpm" } : ReqLimiter).limitKey "1.2.3.4" :=
  limitKey_names_differ rpm { rpm with name := "rpm" } "1.2.3.4" (by decide) (by decide)

/-- C6: for one limiter name and one identity, different namespaces (one of
them possibly empty) give different keys. -/
theorem limitKey_namespaces_differ (rl1 rl2 : ReqLimiter) (ip : String)
    (hn : rl1.name = rl2.name)
    (hns : rl1.reqConfig.«namespace» ≠ rl2.reqConfig.«namespace») :
    rl1.limitKey ip ≠ rl2.limitKey ip := by
  intro h
  have hd := congrArg String.data h
  by_cases e1 : rl1.reqConfig.«namespace» = ""
  · have e2 : rl2.reqConfig.«namespace» ≠ "" := fun e => hns (e1.trans e.symm)
    rw [limitKey_data_empty rl1 ip e1, limitKey_data_nonempty rl2 ip e2, hn] at hd
    have hl := congrArg List.length hd
    simp only [List.length_append, List.length_cons] at hl
    omega
  · by_cases e2 : rl2.reqConfig.«namespace» = ""
    · rw [limitKey_data_nonempty rl1 ip e1, limitKey_data_empty rl2 ip e2, hn] at hd
      have hl := congrArg List.length hd
      simp only [List.length_append, List.length_cons] at hl
      omega
    · rw [limitKey_data_nonempty rl1 ip e1, limitKey_data_nonempty rl2 ip e2, hn] at hd
      exact hns (String.ext (List.append_cancel_right hd))

/-- The example limiter against the same limiter without namespace. -/
theorem limitKey_namespaces_differ_witness :
    rpm.limitKey "1.2.3.4" ≠ (bare "rps").limitKey "1.2.3.4" :=
  limitKey_namespaces_differ rpm (bare "rps") "1.2.3.4" (by decide) (by decide)

/-! ## The connection -/

theorem Do_fault (st : Redis) (c : Cmd) : (st.Do c).2.fault = st.fault := by
  unfold Redis.Do
  dsimp only
  repeat (first | rfl | split)

theorem Do_log (st : Redis) (c : Cmd) : (st.Do c).2.log = st.log ++ [c] := by
  unfold Redis.Do
  dsimp only
  repeat (first | rfl | split)

/-- A command leaves every key other than its own as it was. -/
theorem Do_data_of_ne (st : Redis) (c : Cmd) (k : String) (h : k ≠ c.key) :
    (st.Do c).2.data k = st.data k := by
  unfold Redis.Do
  dsimp only
  split
  · rfl
  · split
    · simp only [Cmd.key] at h
      simp [h]
    · simp only [Cmd.key] at h
      split
      · simp [h]
      · rfl

/-- A failed command returns its error and leaves all entries as they were. -/
theorem Do_of_fault (st : Redis) (c : Cmd) (e : String)
    (h : st.fault st.log.length c = some e) :
    (st.Do c).1 = .error e ∧ (st.Do c).2.data = st.data := by
  unfold Redis.Do
  rw [h]
  exact ⟨rfl, rfl⟩

/-- A successful INCR replies with the stored count plus one. -/
theorem Do_incr_ok (st : Redis) (key : String)
    (h : st.fault st.log.length (.INCR key) = none) :
    (st.Do (.INCR key)).1 = .ok (st.count key + 1) ∧
    (st.Do (.INCR key)).2.count key = st.count key + 1 := by
  unfold Redis.Do Redis.count
  rw [h]
  cases hd : st.data key <;> simp [hd]

/-- The command EXPIRE keeps every stored value, whether it fails or not. -/
theorem Do_expire_value (st : Redis) (key : String) (seconds : Int) (k : String) :
    ((st.Do (.EXPIRE key seconds)).2.data k).map Entry.value = (st.data k).map Entry.value := by
  unfold Redis.Do
  dsimp only
  cases hf : st.fault st.log.length (.EXPIRE key seconds) with
  | some e => rfl
  | none =>
    cases hd : st.data key with
    | none => rfl
    | some e =>
      by_cases hk : k = key
      · simp [hk, hd]
      · simp [hk]

/-- The command EXPIRE keeps every count, whether it fails or not. -/
theorem Do_expire_count (st : Redis) (key : String) (seconds : Int) (k : String) :
    (st.Do (.EXPIRE key seconds)).2.count k = st.count k := by
  have h := Do_expire_value st key seconds k
  unfold Redis.count
  cases h1 : (st.Do (.EXPIRE key seconds)).2.data k <;> cases h2 : st.data k <;>
    simp_all

/-! ## Increment and verdict -/

theorem incr_fault (rl : ReqLimiter) (key : String) (st : Redis) :
    (rl.incr key st).2.fault = st.fault := by
  unfold ReqLimiter.incr
  dsimp only
  split
  · rw [Do_fault, Do_fault]
  · rw [Do_fault]

/-- The method incr touches no key but the one it is given. -/
theorem incr_data_of_ne (rl : ReqLimiter) (key : String) (st : Redis) (k : String)
    (h : k ≠ key) : (rl.incr key st).2.data k = st.data k := by
  unfold ReqLimiter.incr
  dsimp only
  split
  · rw [Do_data_of_ne _ _ _ (by simpa [Cmd.key] using h),
      Do_data_of_ne _ _ _ (by simpa [Cmd.key] using h)]
  · rw [Do_data_of_ne _ _ _ (by simpa [Cmd.key] using h)]

/-- When INCR succeeds, incr returns the stored count plus one without error,
and that is the count stored afterwards. -/
theorem incr_of_ok (rl : ReqLimiter) (key : String) (st : Redis)
    (h : st.fault st.log.length (.INCR key) = none) :
    (rl.incr key st).1 = (st.count key + 1, none) ∧
    (rl.incr key st).2.count key = st.count key + 1 := by
  obtain ⟨h1, h2⟩ := Do_incr_ok st key h
  unfold ReqLimiter.incr
  dsimp only
  rw [h1]
  refine ⟨rfl, ?_⟩
  split
  · rw [Do_expire_count, h2]
  · exact h2

/-- When INCR fails, incr returns 0 with the error of INCR, sends nothing else
and changes no entry. -/
theorem incr_of_fault (rl : ReqLimiter) (key : String) (st : Redis) (e : String)
    (h : st.fault st.log.length (.INCR key) = some e) :
    (rl.incr key st).1 = (0, some e) ∧
    (rl.incr key st).2.data = st.data ∧
    (rl.incr key st).2.log = st.log ++ [.INCR key] := by
  obtain ⟨h1, h2⟩ := Do_of_fault st (.INCR key) e h
  unfold ReqLimiter.incr
  dsimp only
  rw [h1]
  simp only [redisInt]
  rw [if_neg (by decide)]
  exact ⟨trivial, h2, Do_log st _⟩

theorem Exceed_fault (rl : ReqLimiter) (r : Request) (st : Redis) :
    (rl.Exceed r st).2.fault = st.fault := by
  unfold ReqLimiter.Exceed
  dsimp only
  split <;> exact incr_fault _ _ _

/-- The state after Exceed is the state after incr on the key of the request. -/
theorem Exceed_state (rl : ReqLimiter) (r : Request) (st : Redis) :
    (rl.Exceed r st).2 = (rl.incr (rl.limitKey (realIPAddress r)) st).2 := by
  unfold ReqLimiter.Exceed
  dsimp only
  split <;> rfl

/-- When INCR succeeds, Exceed compares the new count with the limit. -/
theorem Exceed_of_ok (rl : ReqLimiter) (r : Request) (st : Redis)
    (h : st.fault st.log.length (.INCR (rl.limitKey (realIPAddress r))) = none) :
    (rl.Exceed r st).1 =
      (decide (st.count (rl.limitKey (realIPAddress r)) + 1 > rl.limit), none) := by
  obtain ⟨h1, _⟩ := incr_of_ok rl _ st h
  unfold ReqLimiter.Exceed
  dsimp only
  rw [h1]

/-- When INCR fails, Exceed returns false with the error of INCR. -/
theorem Exceed_of_fault (rl : ReqLimiter) (r : Request) (st : Redis) (e : String)
    (h : st.fault st.log.length (.INCR (rl.limitKey (realIPAddress r))) = some e) :
    (rl.Exceed r st).1 = (false, some e) := by
  obtain ⟨h1, _⟩ := incr_of_fault rl _ st e h
  unfold ReqLimiter.Exceed
  dsimp only
  rw [h1]

/-- Consecutive calls for one key: call number k+1 compares the initial count
plus k+1 with the limit. -/
theorem exceedAll_get (rl : ReqLimiter) (identity : String) :
    ∀ (rs : List Request) (st : Redis),
      (∀ r ∈ rs, realIPAddress r = identity) →
      (∀ n key, st.fault n (.INCR key) = none) →
      ∀ k : Nat, k < rs.length →
        (exceedAll rl rs st).1[k]? =
          some (decide (st.count (rl.limitKey identity) + (k + 1) > rl.limit), none)
  | [], _, _, _, k, hk => absurd hk (Nat.not_lt_zero k)
  | r :: rs, st, hid, hf, k, hk => by
    have hr : realIPAddress r = identity := hid r (List.mem_cons_self _ _)
    have hok := hf st.log.length (rl.limitKey (realIPAddress r))
    have hres := Exceed_of_ok rl r st hok
    have hcnt : (rl.Exceed r st).2.count (rl.limitKey identity) =
        st.count (rl.limitKey identity) + 1 := by
      rw [Exceed_state, hr]
      exact (incr_of_ok rl _ st (hr ▸ hok)).2
    unfold exceedAll
    dsimp only
    cases k with
    | zero =>
      rw [List.getElem?_cons_zero, hres, hr]
      simp
    | succ j =>
      rw [List.getElem?_cons_succ]
      have ih := exceedAll_get rl identity rs (rl.Exceed r st).2
        (fun q hq => hid q (List.mem_cons_of_mem _ hq))
        (fun n key => by rw [Exceed_fault]; exact hf n key)
        j (Nat.lt_of_succ_lt_succ hk)
      rw [ih, hcnt]
      have e : st.count (rl.limitKey identity) + 1 + ((j : Int) + 1) =
          st.count (rl.limitKey identity) + (((j + 1 : Nat) : Int) + 1) := by
        push_cast
        ring
      rw [e]

theorem exceedAll_length (rl : ReqLimiter) :
    ∀ (rs : List Request) (st : Redis), (exceedAll rl rs st).1.length = rs.length
  | [], _ => rfl
  | r :: rs, st => by
    unfold exceedAll
    dsimp only
    rw [List.length_cons, List.length_cons, exceedAll_length rl rs]

/-- C1: on a server where INCR never fails and the key of the identity is
absent at the start (entries never expire in the model), the k-th of
consecutive Exceed calls for that identity returns (false, nil) when k is at most
the limit and (true, nil) when k is above the limit. -/
theorem exceed_kth_call (rl : ReqLimiter) (identity : String) (rs : List Request) (st : Redis)
    (hid : ∀ r ∈ rs, realIPAddress r = identity)
    (hincr : ∀ n key, st.fault n (.INCR key) = none)
    (habsent : st.data (rl.limitKey identity) = none) :
    (exceedAll rl rs st).1.length = rs.length ∧
    ∀ k : Nat, 1 ≤ k → k ≤ rs.length →
      ((k : Int) ≤ rl.limit → (exceedAll rl rs st).1[k - 1]? = some (false, none)) ∧
      (rl.limit < (k : Int) → (exceedAll rl rs st).1[k - 1]? = some (true, none)) := by
  refine ⟨exceedAll_length rl rs st, ?_⟩
  intro k h1 hk
  have hc : st.count (rl.limitKey identity) = 0 := by
    unfold Redis.count
    rw [habsent]
  have hget := exceedAll_get rl identity rs st hid hincr (k - 1) (by omega)
  rw [hc] at hget
  have e : (0 : Int) + (((k - 1 : Nat) : Int) + 1) = (k : Int) := by omega
  rw [e] at hget
  rw [hget]
  constructor
  · intro hle
    simp only [Option.some.injEq, Prod.mk.injEq, decide_eq_false_iff_not, and_true]
    omega
  · intro hlt
    simp only [Option.some.injEq, Prod.mk.injEq, decide_eq_true_eq, and_true]
    omega

/-- The example: 21 calls from "1.2.3.4" against the limit 20 on an empty
server; the 20th returns false and the 21st returns true. -/
theorem exceed_kth_call_witness :
    (exceedAll rpm (List.replicate 21 (requestFrom "1.2.3.4")) emptyRedis).1[19]? =
      some (false, none) ∧
    (exceedAll rpm (List.replicate 21 (requestFrom "1.2.3.4")) emptyRedis).1[20]? =
      some (true, none) :=
  have h := (exceed_kth_call rpm "1.2.3.4" (List.replicate 21 (requestFrom "1.2.3.4")) emptyRedis
    (fun r hr => by rw [List.eq_of_mem_replicate hr]; decide)
    (fun _ _ => rfl)
    rfl).2
  ⟨(h 20 (by decide) (by decide)).1 (by decide), (h 21 (by decide) (by decide)).2 (by decide)⟩

/-- C4: for one limiter and identities A and B that differ, the keys differ, and
an Exceed call for A leaves the entry (count and time-to-live) stored under the
key of B as it was. -/
theorem exceed_keeps_other_identity (rl : ReqLimiter) (r : Request) (b : String) (st : Redis)
    (h : realIPAddress r ≠ b) :
    rl.limitKey (realIPAddress r) ≠ rl.limitKey b ∧
    (rl.Exceed r st).2.data (rl.limitKey b) = st.data (rl.limitKey b) ∧
    (rl.Exceed r st).2.count (rl.limitKey b) = st.count (rl.limitKey b) := by
  have hk : rl.limitKey b ≠ rl.limitKey (realIPAddress r) :=
    fun e => h (limitKey_ip_inj rl _ _ e).symm
  have hd : (rl.Exceed r st).2.data (rl.limitKey b) = st.data (rl.limitKey b) := by
    rw [Exceed_state]
    exact incr_data_of_ne rl _ st _ hk
  refine ⟨fun e => hk e.symm, hd, ?_⟩
  unfold Redis.count
  rw [hd]

/-- A call for "A" on a server that holds the count 5 for "B": the count of "B"
is still 5. -/
theorem exceed_keeps_other_identity_witness :
    (rpm.Exceed (requestFrom "A") redisWithB).2.count (rpm.limitKey "B") = 5 :=
  ((exceed_keeps_other_identity rpm (requestFrom "A") "B" redisWithB (by decide)).2.2).trans
    (by decide)

/-- C8: when the INCR sent by Exceed fails, Exceed returns false together with
the error of INCR, and neither (true, nil) nor (false, nil). -/
theorem exceed_incr_failure (rl : ReqLimiter) (r : Request) (st : Redis) (e : String)
    (h : st.fault st.log.length (.INCR (rl.limitKey (realIPAddress r))) = some e) :
    (rl.Exceed r st).1 = (false, some e) ∧
    (rl.Exceed r st).1 ≠ (true, none) ∧
    (rl.Exceed r st).1 ≠ (false, none) := by
  have hres := Exceed_of_fault rl r st e h
  rw [hres]
  exact ⟨rfl, by simp, by simp⟩

/-- A call on a server that refuses every command. -/
theorem exceed_incr_failure_witness :
    (rpm.Exceed (requestFrom "1.2.3.4") downRedis).1 = (false, some "connection refused") :=
  (exceed_incr_failure rpm (requestFrom "1.2.3.4") downRedis "connection refused" rfl).1

/-- C9 fails on the code: on a server where INCR succeeds with the count 1 and
the EXPIRE that follows fails, incr returns (1, nil) and Exceed returns
(false, nil); the failed EXPIRE was sent and the entry is left without
time-to-live. -/
theorem incr_drops_expire_error :
    expireFails.fault 1 (.EXPIRE "Appname:limiter:rps:1.2.3.4" 60) = some "i/o timeout" ∧
    (rpm.incr "Appname:limiter:rps:1.2.3.4" expireFails).1 = (1, none) ∧
    (rpm.Exceed (requestFrom "1.2.3.4") expireFails).1 = (false, none) ∧
    (rpm.Exceed (requestFrom "1.2.3.4") expireFails).2.log =
      [.INCR "Appname:limiter:rps:1.2.3.4", .EXPIRE "Appname:limiter:rps:1.2.3.4" 60] ∧
    (rpm.Exceed (requestFrom "1.2.3.4") expireFails).2.data "Appname:limiter:rps:1.2.3.4" =
      some ⟨1, none⟩ := by
  refine ⟨by decide, by decide, by decide, by decide, by decide⟩

/-! ## The registry -/

theorem NewLimiter_of_registered (rc : ReqConfig) (name : String) (interval limit : Int)
    (h : rc.names name = true) :
    rc.NewLimiter name interval limit = .error "Name must be unique" := by
  unfold ReqConfig.NewLimiter
  rw [if_pos h]

theorem NewLimiter_of_fresh (rc : ReqConfig) (name : String) (interval limit : Int)
    (h : rc.names name = false) :
    rc.NewLimiter name interval limit =
      .ok ({ name := name
             reqConfig := { rc with names := fun k => if k = name then true else rc.names k }
             interval := interval
             limit := limit },
           { rc with names := fun k => if k = name then true else rc.names k }) := by
  unfold ReqConfig.NewLimiter
  rw [if_neg (by simp [h])]

/-- The set of registered names only grows. -/
theorem registerAll_names (name : String) :
    ∀ (calls : List (String × Int × Int)) (rc : ReqConfig),
      rc.names name = true → (registerAll rc calls).names name = true
  | [], _, h => h
  | (n, i, l) :: calls, rc, h => by
    unfold registerAll
    cases hn : rc.names n with
    | true =>
      rw [NewLimiter_of_registered rc n i l hn]
      exact registerAll_names name calls rc h
    | false =>
      rw [NewLimiter_of_fresh rc n i l hn]
      refine registerAll_names name calls _ ?_
      dsimp only
      split
      · rfl
      · exact h

/-- C7: NewLimiter panics exactly when the name is already registered; with a
name not yet registered it returns a limiter with the given name, interval and
limit and registers the name, after which every later NewLimiter call on that
registry with the same name panics, whatever interval and limit it is given. -/
theorem NewLimiter_panics_iff_registered (rc : ReqConfig) (name : String)
    (interval limit : Int) :
    ((∃ msg, rc.NewLimiter name interval limit = .error msg) ↔ rc.names name = true) ∧
    (rc.names name = false →
      ∃ rl rc2, rc.NewLimiter name interval limit = .ok (rl, rc2) ∧
        rl.name = name ∧ rl.interval = interval ∧ rl.limit = limit ∧
        rl.reqConfig.«namespace» = rc.«namespace» ∧
        rc2.names name = true ∧ (∀ k, rc.names k = true → rc2.names k = true) ∧
        ∀ (calls : List (String × Int × Int)) (interval2 limit2 : Int),
          (registerAll rc2 calls).NewLimiter name interval2 limit2 =
            .error "Name must be unique") := by
  constructor
  · constructor
    · rintro ⟨msg, hmsg⟩
      cases hn : rc.names name with
      | true => rfl
      | false =>
        rw [NewLimiter_of_fresh rc name interval limit hn] at hmsg
        cases hmsg
    · intro h
      exact ⟨_, NewLimiter_of_registered rc name interval limit h⟩
  · intro h
    refine ⟨_, _, NewLimiter_of_fresh rc name interval limit h, rfl, rfl, rfl, rfl, ?_, ?_, ?_⟩
    · simp
    · intro k hk
      simp [hk]
    · intro calls interval2 limit2
      apply NewLimiter_of_registered
      apply registerAll_names
      simp

/-- The example registry: "rps" is not registered at first, and after its
registration and that of a limiter "rpm" a second "rps" panics. -/
theorem NewLimiter_panics_iff_registered_witness :
    exampleConfig.names "rps" = false ∧
    (registerAll registeredConfig [("rpm", 60, 1200)]).NewLimiter "rps" 1 1 =
      .error "Name must be unique" := by
  refine ⟨rfl, ?_⟩
  obtain ⟨rl, rc2, h1, _, _, _, _, _, _, h8⟩ :=
    (NewLimiter_panics_iff_registered exampleConfig "rps" 60 20).2 rfl
  have e : rc2 = registeredConfig := by
    rw [NewLimiter_of_fresh exampleConfig "rps" 60 20 rfl] at h1
    injection h1 with h1
    injection h1 with _ h2
    exact h2.symm
  rw [← e]
  exact h8 [("rpm", 60, 1200)] 1 1

/-! ## The expiry -/

/-- The helper redis.Int yields the value 1 only for the integer reply 1. -/
theorem redisInt_one_iff (r : Except String Int) : (redisInt r).1 = 1 ↔ r = .ok 1 := by
  cases r with
  | ok n =>
    constructor
    · intro h
      exact congrArg Except.ok h
    · intro h
      injection h
  | error e =>
    constructor
    · intro h
      exact absurd h (show ¬ ((0 : Int) = 1) by decide)
    · intro h
      cases h

/-- The method incr returns what redis.Int makes of the reply to INCR. -/
theorem incr_result (rl : ReqLimiter) (key : String) (st : Redis) :
    (rl.incr key st).1 = redisInt (st.Do (.INCR key)).1 := rfl

/-- The state after incr when the reply to INCR is 1: INCR, then EXPIRE. -/
theorem incr_state_of_one (rl : ReqLimiter) (key : String) (st : Redis)
    (h : (st.Do (.INCR key)).1 = .ok 1) :
    (rl.incr key st).2 = ((st.Do (.INCR key)).2.Do (.EXPIRE key rl.interval)).2 := by
  unfold ReqLimiter.incr
  dsimp only
  rw [if_pos ((redisInt_one_iff _).2 h)]

/-- The state after incr when the reply to INCR is not 1: INCR alone. -/
theorem incr_state_of_not_one (rl : ReqLimiter) (key : String) (st : Redis)
    (h : (st.Do (.INCR key)).1 ≠ .ok 1) :
    (rl.incr key st).2 = (st.Do (.INCR key)).2 := by
  unfold ReqLimiter.incr
  dsimp only
  rw [if_neg (fun e => h ((redisInt_one_iff _).1 e))]

/-- The command INCR keeps the time-to-live of every entry present before. -/
theorem Do_incr_ttl (st : Redis) (key k : String) (e : Entry) (h : st.data k = some e) :
    ∃ e2, (st.Do (.INCR key)).2.data k = some e2 ∧ e2.ttl = e.ttl := by
  unfold Redis.Do
  dsimp only
  cases hf : st.fault st.log.length (.INCR key) with
  | some err => exact ⟨e, h, rfl⟩
  | none =>
    by_cases hk : k = key
    · subst hk
      simp [h]
    · simp [hk, h]

/-- The reply to INCR on a present entry whose count is not 0 is not 1. -/
theorem Do_incr_reply_of_nonzero (st : Redis) (key : String) (e : Entry)
    (h : st.data key = some e) (hv : e.value ≠ 0) : (st.Do (.INCR key)).1 ≠ .ok 1 := by
  cases hf : st.fault st.log.length (.INCR key) with
  | some err =>
    rw [(Do_of_fault st _ err hf).1]
    intro hc
    cases hc
  | none =>
    rw [(Do_incr_ok st key hf).1]
    have hc : st.count key = e.value := by
      unfold Redis.count
      rw [h]
    intro hok
    injection hok with hok
    omega

/-- The commands incr sends, by the reply to INCR. -/
theorem incr_issued (rl : ReqLimiter) (key : String) (st : Redis) :
    issued st (rl.incr key st).2 =
      .INCR key ::
        (if (st.Do (.INCR key)).1 = .ok 1 then [.EXPIRE key rl.interval] else []) := by
  unfold issued
  by_cases h : (st.Do (.INCR key)).1 = .ok 1
  · rw [incr_state_of_one rl key st h, if_pos h, Do_log, Do_log, List.append_assoc,
      List.drop_left]
    rfl
  · rw [incr_state_of_not_one rl key st h, if_neg h, Do_log, List.drop_left]

/-- C10 fails as stated: on a server that holds the count 0 with 30 seconds to
live under "k", INCR replies 1, incr sends EXPIRE with the interval 60, and the
time-to-live of the entry that was already there goes from 30 to 60. -/
theorem incr_extends_zero_entry :
    redisZero.data "k" = some ⟨0, some 30⟩ ∧
    (redisZero.Do (.INCR "k")).1 = .ok 1 ∧
    issued redisZero (rpm.incr "k" redisZero).2 = [.INCR "k", .EXPIRE "k" 60] ∧
    (rpm.incr "k" redisZero).2.data "k" = some ⟨1, some 60⟩ ∧
    ¬ (∀ (rl : ReqLimiter) (key : String) (st : Redis) (e : Entry),
        st.data key = some e →
        ∃ e2, (rl.incr key st).2.data key = some e2 ∧ e2.ttl = e.ttl) := by
  refine ⟨by decide, by decide, by decide, by decide, ?_⟩
  intro hall
  obtain ⟨e2, h1, h2⟩ := hall rpm "k" redisZero ⟨0, some 30⟩ (by decide)
  have h3 : (rpm.incr "k" redisZero).2.data "k" = some ⟨1, some 60⟩ := by decide
  rw [h3] at h1
  injection h1 with h1
  rw [← h1] at h2
  exact absurd h2 (by decide)

/-- C10 amended: incr returns what redis.Int makes of the reply to INCR, and it
sends EXPIRE for the key exactly when that reply is the count 1, with the
interval of the limiter as seconds, right after INCR; for every other reply and
when INCR fails it sends INCR alone and the server is left as INCR left it.  No
entry under another key, and no entry whose count was not 0, changes its
time-to-live. -/
theorem incr_sends_expire_iff_reply_one (rl : ReqLimiter) (key : String) (st : Redis) :
    (rl.incr key st).1 = redisInt (st.Do (.INCR key)).1 ∧
    issued st (rl.incr key st).2 =
      .INCR key ::
        (if (st.Do (.INCR key)).1 = .ok 1 then [.EXPIRE key rl.interval] else []) ∧
    ((∃ s, Cmd.EXPIRE key s ∈ issued st (rl.incr key st).2) ↔
      (st.Do (.INCR key)).1 = .ok 1) ∧
    (∀ k s, Cmd.EXPIRE k s ∈ issued st (rl.incr key st).2 → k = key ∧ s = rl.interval) ∧
    ((st.Do (.INCR key)).1 = .ok 1 →
      (rl.incr key st).2 = ((st.Do (.INCR key)).2.Do (.EXPIRE key rl.interval)).2) ∧
    ((st.Do (.INCR key)).1 ≠ .ok 1 → (rl.incr key st).2 = (st.Do (.INCR key)).2) ∧
    (∀ err, st.fault st.log.length (.INCR key) = some err →
      issued st (rl.incr key st).2 = [.INCR key] ∧ (rl.incr key st).2.data = st.data) ∧
    (∀ k e, st.data k = some e → (k ≠ key ∨ e.value ≠ 0) →
      ∃ e2, (rl.incr key st).2.data k = some e2 ∧ e2.ttl = e.ttl) := by
  have hiss := incr_issued rl key st
  refine ⟨incr_result rl key st, hiss, ?_, ?_, incr_state_of_one rl key st,
    incr_state_of_not_one rl key st, ?_, ?_⟩
  · rw [hiss]
    constructor
    · rintro ⟨s, hs⟩
      by_contra hne
      rw [if_neg hne] at hs
      simp at hs
    · intro h1
      rw [if_pos h1]
      exact ⟨rl.interval, by simp⟩
  · intro k s hks
    rw [hiss] at hks
    by_cases h1 : (st.Do (.INCR key)).1 = .ok 1
    · rw [if_pos h1] at hks
      simp only [List.mem_cons, List.mem_singleton, List.not_mem_nil, or_false] at hks
      rcases hks with hks | hks
      · cases hks
      · injection hks with hk hs
        exact ⟨hk, hs⟩
    · rw [if_neg h1] at hks
      simp at hks
  · intro err hf
    have hne : (st.Do (.INCR key)).1 ≠ .ok 1 := by
      rw [(Do_of_fault st _ err hf).1]
      intro hc
      cases hc
    rw [hiss, if_neg hne, incr_state_of_not_one rl key st hne]
    exact ⟨rfl, (Do_of_fault st _ err hf).2⟩
  · intro k e hk hor
    by_cases hkey : k = key
    · subst hkey
      have hv : e.value ≠ 0 := by
        rcases hor with h | h
        · exact absurd rfl h
        · exact h
      rw [incr_state_of_not_one rl k st (Do_incr_reply_of_nonzero st k e hk hv)]
      exact Do_incr_ttl st k k e hk
    · rw [incr_data_of_ne rl key st k hkey]
      exact ⟨e, hk, rfl⟩

/-- Two calls of the example limiter: on an empty server the reply to INCR is 1
and INCR, EXPIRE with 60 seconds are sent; a call for the address "B" on a server
that holds the count 5 for it with 60 seconds to live leaves those 60 seconds. -/
theorem incr_sends_expire_iff_reply_one_witness :
    (emptyRedis.Do (.INCR "k")).1 = .ok 1 ∧
    issued emptyRedis (rpm.incr "k" emptyRedis).2 = [.INCR "k", .EXPIRE "k" 60] ∧
    ((rpm.incr "Appname:limiter:rps:B" redisWithB).2.data "Appname:limiter:rps:B").map
      Entry.ttl = some (some 60) := by
  refine ⟨by decide,
    (incr_sends_expire_iff_reply_one rpm "k" emptyRedis).2.1.trans (by decide), ?_⟩
  obtain ⟨e2, h1, h2⟩ :=
    (incr_sends_expire_iff_reply_one rpm "Appname:limiter:rps:B" redisWithB).2.2.2.2.2.2.2
      "Appname:limiter:rps:B" ⟨5, some 60⟩ (by decide) (Or.inr (by decide))
  rw [h1, Option.map_some', h2]

end Reqlimit
